import Mathlib

/-!
Shallow embedding of `atom.py` (class `Atom`) and verification of the
specification's claims about it.

Numeric values (Python floats) are modelled as exact rationals `ℚ`;
Euclidean distances, which the source computes with `np.sqrt`, live in `ℝ`
via `Real.sqrt`.  Python's `frozenset` is modelled as `Finset`, and
`collections.Counter(..).most_common()` is modelled by an explicit stable
count-descending sort (`mostCommon` below), matching CPython's documented
behaviour (insertion-ordered counting, stable `sorted`).
-/

/-- A 3-vector of rationals, standing for a Python 3-sequence of floats. -/
abbrev Vec3 : Type := ℚ × ℚ × ℚ

/-- Negation of a 3-vector: the source's `[-i for i in vec]`. -/
def vNeg (v : Vec3) : Vec3 := (-v.1, -v.2.1, -v.2.2)

/-- Outcome of Python's `float(arg)` coercion for a constructor argument:
either it succeeds with a rational value, or it raises `ValueError`
(a string that does not parse as a number), or it raises `TypeError`
(an argument that is neither a string nor a number, e.g. `None`). -/
inductive PyFloatArg : Type where
  | ok (v : ℚ)
  | valueError
  | typeError
deriving DecidableEq

/-- The `Atom` object's state: element symbol, Cartesian coordinates,
partial charge, atomic-number placeholder, and the optional connectivity
classification (`frozenset` of `((element, bond order), count)` pairs)
with the derived `kind`. -/
structure Atom : Type where
  elem : String
  x : ℚ
  y : ℚ
  z : ℚ
  q : ℚ
  num : ℤ
  connectivity : Option (Finset ((String × ℚ) × ℕ))
  kind : Option (String × Finset ((String × ℚ) × ℕ))
deriving DecidableEq

/-- Embedding of `Atom.__init__`.  Fields start at their defaults, then the
`try` block assigns `x`, `y`, `z`, `q` in order from the coerced inputs;
a `ValueError` is caught (the returned `Bool` records that the diagnostic
message was printed, and the remaining assignments are skipped), while a
`TypeError` escapes the `except ValueError` handler, so construction fails
(`Except.error`).  The `num` argument is ignored: the source sets
`self.num = 1` unconditionally. -/
def Atom.init (elemIn : String) (xIn yIn zIn qIn : PyFloatArg) (_numIn : ℤ) :
    Except Unit (Atom × Bool) :=
  let a0 : Atom :=
    { elem := elemIn, x := 0, y := 0, z := 0, q := 0, num := 1,
      connectivity := none, kind := none }
  match xIn with
  | .typeError => .error ()
  | .valueError => .ok (a0, true)
  | .ok xv =>
    match yIn with
    | .typeError => .error ()
    | .valueError => .ok ({ a0 with x := xv }, true)
    | .ok yv =>
      match zIn with
      | .typeError => .error ()
      | .valueError => .ok ({ a0 with x := xv, y := yv }, true)
      | .ok zv =>
        match qIn with
        | .typeError => .error ()
        | .valueError => .ok ({ a0 with x := xv, y := yv, z := zv }, true)
        | .ok qv => .ok ({ a0 with x := xv, y := yv, z := zv, q := qv }, false)

/-- The atom built by `Atom(elemIn, x, y, z, q)` when every numeric argument
coerces (the only way the rest of the source ever calls the constructor). -/
def Atom.ofParts (elemIn : String) (xv yv zv qv : ℚ) : Atom :=
  { elem := elemIn, x := xv, y := yv, z := zv, q := qv, num := 1,
    connectivity := none, kind := none }

theorem Atom.init_ok (elemIn : String) (xv yv zv qv : ℚ) (numIn : ℤ) :
    Atom.init elemIn (.ok xv) (.ok yv) (.ok zv) (.ok qv) numIn =
      .ok (Atom.ofParts elemIn xv yv zv qv, false) := rfl

/-- Python's `str.lower()`, written directly on the string's character
list (ASCII element symbols are all this code ever lowercases). -/
def pyLower (s : String) : String := ⟨s.data.map Char.toLower⟩

/-- Embedding of `Atom.__eq__`: case-insensitive element comparison and
exact equality of the four numeric fields. -/
def Atom.beq (a other : Atom) : Bool :=
  decide (pyLower a.elem = pyLower other.elem) && decide (a.x = other.x) &&
    decide (a.y = other.y) && decide (a.z = other.z) && decide (a.q = other.q)

/-- The squared Euclidean distance from the atom to a point (the radicand
the source hands to `np.sqrt` in `dist` and `dist_lat`). -/
def Atom.distSq (a : Atom) (x1 y1 z1 : ℚ) : ℚ :=
  (a.x - x1) ^ 2 + (a.y - y1) ^ 2 + (a.z - z1) ^ 2

/-- Embedding of `Atom.dist`: Euclidean distance from the atom to a point. -/
noncomputable def Atom.dist (a : Atom) (x1 y1 z1 : ℚ) : ℝ :=
  Real.sqrt ((a.distSq x1 y1 z1 : ℚ) : ℝ)

/-- The 27 candidate translated points visited by `dist_lat`'s triple loop:
`aSet = [aVec, nVec, -aVec]` outermost, then `bSet`, then `cSet`, each
candidate being the target point plus one vector from each set. -/
def latCands (x1 y1 z1 : ℚ) (aVec bVec cVec : Vec3) : List Vec3 :=
  let nVec : Vec3 := (0, 0, 0)
  let aSet := [aVec, nVec, vNeg aVec]
  let bSet := [bVec, nVec, vNeg bVec]
  let cSet := [cVec, nVec, vNeg cVec]
  aSet.flatMap (fun t1 =>
    bSet.flatMap (fun t2 =>
      cSet.map (fun t3 =>
        (x1 + t1.1 + t2.1 + t3.1,
         y1 + t1.2.1 + t2.2.1 + t3.2.1,
         z1 + t1.2.2 + t2.2.2 + t3.2.2))))

/-- One iteration of `dist_lat`'s loop body, tracking squared distances:
`none` is the initial `rMin = inf` state (with `x3,y3,z3` unbound), and the
update fires exactly when the strict comparison `r < rMin` holds. -/
def minStep (a : Atom) (acc : Option (ℚ × Vec3)) (p : Vec3) : Option (ℚ × Vec3) :=
  let r := a.distSq p.1 p.2.1 p.2.2
  match acc with
  | none => some (r, p)
  | some (m, w) => if r < m then some (r, p) else some (m, w)

/-- The squared-distance shadow of `dist_lat`: same loop, same strict-`<`
update rule, but carrying `r²` instead of `r` (legitimate because `√` is
strictly monotone on nonnegative reals; the equivalence is proved in
`Atom.dist_lat_eq_sq`). -/
def Atom.dist_lat_sq (a : Atom) (x1 y1 z1 : ℚ) (aVec bVec cVec : Vec3) :
    Option (ℚ × Vec3) :=
  (latCands x1 y1 z1 aVec bVec cVec).foldl (minStep a) none

/-- One iteration of `dist_lat`'s loop body exactly as the source runs it,
on real square-root distances. -/
noncomputable def minStepR (a : Atom) (acc : Option (ℝ × Vec3)) (p : Vec3) :
    Option (ℝ × Vec3) :=
  let r := Real.sqrt ((a.distSq p.1 p.2.1 p.2.2 : ℚ) : ℝ)
  match acc with
  | none => some (r, p)
  | some (m, w) => if r < m then some (r, p) else some (m, w)

/-- Embedding of `Atom.dist_lat`: fold the loop body over the 27 candidate
points, starting from `rMin = inf` (modelled by `none`, since every real
distance satisfies `r < inf` the first iteration always updates).  The
result is `some (rMin, (x3, y3, z3))`. -/
noncomputable def Atom.dist_lat (a : Atom) (x1 y1 z1 : ℚ) (aVec bVec cVec : Vec3) :
    Option (ℝ × Vec3) :=
  (latCands x1 y1 z1 aVec bVec cVec).foldl (minStepR a) none

/-- Embedding of `Atom.translated`: a fresh `Atom(self.elem, x+dx, y+dy,
z+dz, self.q)` built through the constructor (so `num`, `connectivity` and
`kind` are reset to their constructor values). -/
def Atom.translated (a : Atom) (x1 y1 z1 : ℚ) : Atom :=
  Atom.ofParts a.elem (a.x + x1) (a.y + y1) (a.z + z1) a.q

/-- Embedding of `Atom.translate`: in-place coordinate update, modelled as
a state transformer that leaves every other field unchanged. -/
def Atom.translate (a : Atom) (x1 y1 z1 : ℚ) : Atom :=
  { a with x := a.x + x1, y := a.y + y1, z := a.z + z1 }

/-- Embedding of `Atom.electrons`: hardcoded `(valence, total)` electron
counts for H, C, N, O on the lowercased element symbol, `(0, 0)` otherwise. -/
def Atom.electrons (a : Atom) : ℤ × ℤ :=
  let element := pyLower a.elem
  if element = "h" then (1, 1)
  else if element = "c" then (4, 6)
  else if element = "n" then (5, 7)
  else if element = "o" then (6, 8)
  else (0, 0)

/-- The four-entry periodic table literal from `num_to_elem`. -/
def periodic : List (String × ℤ) := [("H", 1), ("C", 6), ("N", 7), ("O", 8)]

/-- Embedding of `Atom.num_to_elem`: scan the table and overwrite `elem`
on every matching atomic number (a no-op when none matches). -/
def Atom.num_to_elem (a : Atom) (num : ℤ) : Atom :=
  periodic.foldl
    (fun acc element => if num = element.2 then { acc with elem := element.1 } else acc)
    a

/-- First-occurrence deduplication: the insertion order of the keys of
`collections.Counter` built by iterating a list. -/
def firstOccur {β : Type} [DecidableEq β] : List β → List β
  | [] => []
  | b :: bs => b :: (firstOccur bs).filter (fun c => decide (c ≠ b))

/-- Number of occurrences of `b` in a list, under decidable equality (the
multiplicity recorded by `collections.Counter`). -/
def occCount {β : Type} [DecidableEq β] (b : β) (l : List β) : ℕ :=
  (l.filter (fun c => decide (c = b))).length

/-- Stable insertion into a count-descending list: the new entry goes after
every entry with a count greater than or equal to its own. -/
def insertDesc {β : Type} (xe : β × ℕ) : List (β × ℕ) → List (β × ℕ)
  | [] => [xe]
  | ye :: ys => if xe.2 ≤ ye.2 then ye :: insertDesc xe ys else xe :: ye :: ys

/-- Embedding of `Counter(links).most_common()`: pair each distinct element
(in first-occurrence order) with its multiplicity, then stable-sort by
count descending, so ties keep first-occurrence order. -/
def mostCommon {β : Type} [DecidableEq β] (l : List β) : List (β × ℕ) :=
  ((firstOccur l).map (fun b => (b, occCount b l))).foldl
    (fun acc xe => insertDesc xe acc) []

/-- The `links` list built by `set_connectivity`'s loop: one
`(peer element, bond order)` pair per peer whose row entry is nonzero, in
peer-list order. -/
def mkLinks (in_atoms : List Atom) (in_row : List ℚ) : List (String × ℚ) :=
  ((in_atoms.zip in_row).filter (fun pr => decide (pr.2 ≠ 0))).map
    (fun pr => (pr.1.elem, pr.2))

/-- Embedding of `Atom.set_connectivity`: build `links`, set
`connectivity = frozenset(Counter(links).most_common())` and
`kind = (elem, connectivity)`. -/
def Atom.set_connectivity (a : Atom) (in_atoms : List Atom) (in_row : List ℚ) : Atom :=
  let links := mkLinks in_atoms in_row
  let conn := (mostCommon links).toFinset
  { a with connectivity := some conn, kind := some (a.elem, conn) }

/-- Connectivity as the claims describe it: the unordered collection of
`(pair, multiplicity)` entries, one per distinct `(element, bond order)`
pair occurring in `links`. -/
def specConn (links : List (String × ℚ)) : Finset ((String × ℚ) × ℕ) :=
  (links.map (fun b => (b, occCount b links))).toFinset

/-! ### Helper lemmas about `mostCommon` and `set_connectivity` -/

theorem mem_insertDesc {β : Type} (xe ye : β × ℕ) (l : List (β × ℕ)) :
    ye ∈ insertDesc xe l ↔ ye = xe ∨ ye ∈ l := by
  induction l with
  | nil => simp [insertDesc]
  | cons z zs ih =>
    simp only [insertDesc]
    split
    · simp only [List.mem_cons, ih]
      tauto
    · exact List.mem_cons

theorem mem_foldl_insertDesc {β : Type} (l acc : List (β × ℕ)) (ye : β × ℕ) :
    ye ∈ l.foldl (fun acc xe => insertDesc xe acc) acc ↔ ye ∈ l ∨ ye ∈ acc := by
  induction l generalizing acc with
  | nil => simp
  | cons z zs ih =>
    rw [List.foldl_cons, ih]
    simp only [mem_insertDesc, List.mem_cons]
    tauto

theorem mem_firstOccur {β : Type} [DecidableEq β] (l : List β) (b : β) :
    b ∈ firstOccur l ↔ b ∈ l := by
  induction l with
  | nil => simp [firstOccur]
  | cons c cs ih =>
    by_cases hbc : b = c
    · simp [firstOccur, hbc]
    · simp [firstOccur, hbc, List.mem_filter, ih]

theorem mem_mostCommon {β : Type} [DecidableEq β] (l : List β) (xe : β × ℕ) :
    xe ∈ mostCommon l ↔ ∃ b ∈ l, xe = (b, occCount b l) := by
  rw [mostCommon, mem_foldl_insertDesc]
  simp [List.mem_map, mem_firstOccur, eq_comm]

theorem mostCommon_toFinset {β : Type} [DecidableEq β] (l : List β) :
    (mostCommon l).toFinset = (l.map (fun b => (b, occCount b l))).toFinset := by
  ext xe
  simp [List.mem_toFinset, mem_mostCommon, List.mem_map, eq_comm]

theorem pairwise_insertDesc {β : Type} (xe : β × ℕ) (l : List (β × ℕ))
    (h : l.Pairwise (fun ue ve => ve.2 ≤ ue.2)) :
    (insertDesc xe l).Pairwise (fun ue ve => ve.2 ≤ ue.2) := by
  induction l with
  | nil => simp [insertDesc]
  | cons y ys ih =>
    rw [List.pairwise_cons] at h
    simp only [insertDesc]
    split
    · rename_i hle
      rw [List.pairwise_cons]
      refine ⟨fun z hz => ?_, ih h.2⟩
      rcases (mem_insertDesc xe z ys).1 hz with hz | hz
      · exact hz ▸ hle
      · exact h.1 z hz
    · rename_i hgt
      push_neg at hgt
      rw [List.pairwise_cons]
      refine ⟨fun z hz => ?_, List.pairwise_cons.2 h⟩
      rcases List.mem_cons.1 hz with hz | hz
      · exact hz ▸ le_of_lt hgt
      · exact le_trans (h.1 z hz) (le_of_lt hgt)

theorem pairwise_foldl_insertDesc {β : Type} (l acc : List (β × ℕ))
    (hacc : acc.Pairwise (fun ue ve => ve.2 ≤ ue.2)) :
    (l.foldl (fun acc xe => insertDesc xe acc) acc).Pairwise (fun ue ve => ve.2 ≤ ue.2) := by
  induction l generalizing acc with
  | nil => exact hacc
  | cons z zs ih => exact ih _ (pairwise_insertDesc z acc hacc)

theorem mostCommon_sorted {β : Type} [DecidableEq β] (l : List β) :
    (mostCommon l).Pairwise (fun ue ve => ve.2 ≤ ue.2) :=
  pairwise_foldl_insertDesc _ [] (by simp)

theorem set_connectivity_spec (a : Atom) (in_atoms : List Atom) (in_row : List ℚ) :
    (a.set_connectivity in_atoms in_row).connectivity =
        some (specConn (mkLinks in_atoms in_row)) ∧
      (a.set_connectivity in_atoms in_row).kind =
        some (a.elem, specConn (mkLinks in_atoms in_row)) := by
  constructor <;>
    simp [Atom.set_connectivity, specConn, mostCommon_toFinset]

theorem occCount_perm {α : Type} [DecidableEq α] {l1 l2 : List α} (h : l1.Perm l2)
    (b : α) : occCount b l1 = occCount b l2 :=
  (h.filter (fun c => decide (c = b))).length_eq

theorem specConn_perm {l1 l2 : List (String × ℚ)} (h : l1.Perm l2) :
    specConn l1 = specConn l2 := by
  ext xe
  simp only [specConn, List.mem_toFinset, List.mem_map]
  constructor
  · rintro ⟨b, hb, rfl⟩
    exact ⟨b, h.mem_iff.1 hb, by rw [occCount_perm h b]⟩
  · rintro ⟨b, hb, rfl⟩
    exact ⟨b, h.mem_iff.2 hb, by rw [occCount_perm h b]⟩

/-! ### Concrete atoms used in the claims' examples -/

def hAtom : Atom := Atom.ofParts "H" 0 0 0 0

def hAtomLower : Atom := Atom.ofParts "h" 0 0 0 0

def cAtom : Atom := Atom.ofParts "C" 0 0 0 0

def nAtom : Atom := Atom.ofParts "N" 0 0 0 0

def oAtom : Atom := Atom.ofParts "O" 0 0 0 0

/-! ### Claim theorems -/

/-- C2: for peer list and same-length row, `set_connectivity` sets
`connectivity` to the collection of `((peer element, bond order), count)`
pairs over exactly the peers with a nonzero row entry (count = multiplicity
of the pair), and `kind` to `(own element, connectivity)`; concretely, an
atom bonded to two order-1 carbons and one order-2 oxygen gets connectivity
`{(("C",1),2), (("O",2),1)}`. -/
theorem C2_set_connectivity :
    (∀ (a : Atom) (in_atoms : List Atom) (in_row : List ℚ),
        in_row.length = in_atoms.length →
        (a.set_connectivity in_atoms in_row).connectivity =
            some (specConn (mkLinks in_atoms in_row)) ∧
          (a.set_connectivity in_atoms in_row).kind =
            some (a.elem, specConn (mkLinks in_atoms in_row))) ∧
      (nAtom.set_connectivity [cAtom, cAtom, oAtom] [1, 1, 2]).connectivity =
          some {(("C", 1), 2), (("O", 2), 1)} ∧
        (nAtom.set_connectivity [cAtom, cAtom, oAtom] [1, 1, 2]).kind =
          some ("N", {(("C", 1), 2), (("O", 2), 1)}) := by
  refine ⟨fun a in_atoms in_row _ => set_connectivity_spec a in_atoms in_row, ?_, ?_⟩ <;>
    decide

/-- Witness for C2 at a concrete input, discharging the length hypothesis. -/
theorem C2_set_connectivity_witness :
    (nAtom.set_connectivity [cAtom, cAtom, oAtom] [1, 1, 2]).connectivity =
        some (specConn (mkLinks [cAtom, cAtom, oAtom] [1, 1, 2])) ∧
      (nAtom.set_connectivity [cAtom, cAtom, oAtom] [1, 1, 2]).kind =
        some (nAtom.elem, specConn (mkLinks [cAtom, cAtom, oAtom] [1, 1, 2])) :=
  C2_set_connectivity.1 nAtom [cAtom, cAtom, oAtom] [1, 1, 2] (by decide)

/-- C3 counterexample: no function of the stored `connectivity` value can
recover the most-common-first entry order, because two calls whose
frequency lists differ (tie broken by different first encounters:
`[("O",1),("C",1)]` versus `[("C",1),("O",1)]`) store equal `connectivity`
values.  The stored value is an unordered `frozenset`, so the claim that
the produced connectivity "is an ordered structure" is false. -/
theorem C3_counterexample :
    ¬ ∃ entryOrder : Finset ((String × ℚ) × ℕ) → List ((String × ℚ) × ℕ),
        ∀ (a : Atom) (in_atoms : List Atom) (in_row : List ℚ),
          in_row.length = in_atoms.length →
          entryOrder ((a.set_connectivity in_atoms in_row).connectivity.getD ∅) =
            mostCommon (mkLinks in_atoms in_row) := by
  rintro ⟨entryOrder, h⟩
  have h1 := h hAtom [oAtom, cAtom] [1, 1] (by decide)
  have h2 := h hAtom [cAtom, oAtom] [1, 1] (by decide)
  have hconn : (hAtom.set_connectivity [oAtom, cAtom] [1, 1]).connectivity.getD ∅ =
      (hAtom.set_connectivity [cAtom, oAtom] [1, 1]).connectivity.getD ∅ := by decide
  rw [hconn, h2] at h1
  exact absurd h1 (by decide)

/-- C3 amended: the intermediate `Counter.most_common()` list is
frequency-sorted most-common-first (counts descending), but the stored
`connectivity` is the unordered `frozenset` of its entries, equal to the
unordered `((pair, multiplicity))` collection `specConn`. -/
theorem C3_amended (a : Atom) (in_atoms : List Atom) (in_row : List ℚ) :
    (a.set_connectivity in_atoms in_row).connectivity =
        some ((mostCommon (mkLinks in_atoms in_row)).toFinset) ∧
      (mostCommon (mkLinks in_atoms in_row)).Pairwise (fun ue ve => ve.2 ≤ ue.2) ∧
      (mostCommon (mkLinks in_atoms in_row)).toFinset =
        specConn (mkLinks in_atoms in_row) := by
  refine ⟨rfl, mostCommon_sorted _, ?_⟩
  rw [mostCommon_toFinset]
  rfl

/-- C4: reordering peers and row entries by one and the same permutation
leaves `connectivity` and `kind` unchanged. -/
theorem C4_perm_invariant (a : Atom) (atoms1 atoms2 : List Atom) (row1 row2 : List ℚ)
    (_h1 : row1.length = atoms1.length) (_h2 : row2.length = atoms2.length)
    (hperm : (atoms1.zip row1).Perm (atoms2.zip row2)) :
    (a.set_connectivity atoms1 row1).connectivity =
        (a.set_connectivity atoms2 row2).connectivity ∧
      (a.set_connectivity atoms1 row1).kind = (a.set_connectivity atoms2 row2).kind := by
  have hlinks : (mkLinks atoms1 row1).Perm (mkLinks atoms2 row2) :=
    (hperm.filter _).map _
  have hc : specConn (mkLinks atoms1 row1) = specConn (mkLinks atoms2 row2) :=
    specConn_perm hlinks
  obtain ⟨c1, k1⟩ := set_connectivity_spec a atoms1 row1
  obtain ⟨c2, k2⟩ := set_connectivity_spec a atoms2 row2
  rw [c1, c2, k1, k2, hc]
  exact ⟨rfl, rfl⟩

/-- Witness for C4 at a concrete permuted input. -/
theorem C4_perm_invariant_witness :
    (nAtom.set_connectivity [cAtom, oAtom] [1, 2]).connectivity =
        (nAtom.set_connectivity [oAtom, cAtom] [2, 1]).connectivity ∧
      (nAtom.set_connectivity [cAtom, oAtom] [1, 2]).kind =
        (nAtom.set_connectivity [oAtom, cAtom] [2, 1]).kind :=
  C4_perm_invariant nAtom [cAtom, oAtom] [oAtom, cAtom] [1, 2] [2, 1]
    (by decide) (by decide) (by decide)

/-- C6 counterexample: a constructor argument whose `float()` coercion
raises `TypeError` (a non-string, non-numeric object such as `None`) is
not caught by the source's `except ValueError` handler, so construction
propagates the exception instead of succeeding. -/
theorem C6_counterexample :
    Atom.init "H" PyFloatArg.typeError (.ok 0) (.ok 0) (.ok 0) 1 = Except.error () := rfl

/-- C6 amended: for constructor inputs whose coercion failures are
`ValueError`s (non-numeric strings), construction always succeeds, the
diagnostic is emitted exactly when some coercion fails, and every field
whose coercion fails retains its default `0.0`. -/
theorem C6_amended (elemIn : String) (xIn yIn zIn qIn : PyFloatArg) (numIn : ℤ)
    (hx : xIn ≠ .typeError) (hy : yIn ≠ .typeError)
    (hz : zIn ≠ .typeError) (hq : qIn ≠ .typeError) :
    ∃ (a : Atom) (diag : Bool),
      Atom.init elemIn xIn yIn zIn qIn numIn = .ok (a, diag) ∧
        (diag = true ↔
          (xIn = .valueError ∨ yIn = .valueError ∨ zIn = .valueError ∨ qIn = .valueError)) ∧
        (xIn = .valueError → a.x = 0) ∧ (yIn = .valueError → a.y = 0) ∧
        (zIn = .valueError → a.z = 0) ∧ (qIn = .valueError → a.q = 0) := by
  cases xIn with
  | typeError => exact absurd rfl hx
  | valueError =>
    refine ⟨_, _, rfl, by simp, ?_, ?_, ?_, ?_⟩ <;> intro h <;> rfl
  | ok xv =>
    cases yIn with
    | typeError => exact absurd rfl hy
    | valueError =>
      refine ⟨_, _, rfl, by simp, ?_, ?_, ?_, ?_⟩ <;> intro h <;>
        first | rfl | simp at h
    | ok yv =>
      cases zIn with
      | typeError => exact absurd rfl hz
      | valueError =>
        refine ⟨_, _, rfl, by simp, ?_, ?_, ?_, ?_⟩ <;> intro h <;>
          first | rfl | simp at h
      | ok zv =>
        cases qIn with
        | typeError => exact absurd rfl hq
        | valueError =>
          refine ⟨_, _, rfl, by simp, ?_, ?_, ?_, ?_⟩ <;> intro h <;>
            first | rfl | simp at h
        | ok qv =>
          refine ⟨_, _, rfl, by simp, ?_, ?_, ?_, ?_⟩ <;> intro h <;> simp at h

/-- Witness for C6's amended claim: the second coordinate fails to parse,
construction still succeeds, the diagnostic fires, and `y` stays `0`. -/
theorem C6_amended_witness :
    ∃ (a : Atom) (diag : Bool),
      Atom.init "H" (.ok 1) .valueError (.ok 2) (.ok 3) 7 = .ok (a, diag) ∧
        (diag = true ↔
          ((PyFloatArg.ok 1 = .valueError) ∨ (PyFloatArg.valueError = .valueError) ∨
            (PyFloatArg.ok 2 = .valueError) ∨ (PyFloatArg.ok 3 = .valueError))) ∧
        (PyFloatArg.ok 1 = .valueError → a.x = 0) ∧
        (PyFloatArg.valueError = .valueError → a.y = 0) ∧
        (PyFloatArg.ok 2 = .valueError → a.z = 0) ∧
        (PyFloatArg.ok 3 = .valueError → a.q = 0) :=
  C6_amended "H" (.ok 1) .valueError (.ok 2) (.ok 3) 7
    (by decide) (by decide) (by decide) (by decide)

/-- C7: translating by a vector and then by its negation restores the
original coordinates exactly; the embedding's `translated` is a pure
function building a fresh atom, so neither call mutates its receiver. -/
theorem C7_translated_roundtrip (a : Atom) (d1 d2 d3 : ℚ) :
    ((a.translated d1 d2 d3).translated (-d1) (-d2) (-d3)).x = a.x ∧
      ((a.translated d1 d2 d3).translated (-d1) (-d2) (-d3)).y = a.y ∧
      ((a.translated d1 d2 d3).translated (-d1) (-d2) (-d3)).z = a.z := by
  refine ⟨?_, ?_, ?_⟩ <;> simp [Atom.translated, Atom.ofParts]

/-- C8: `__eq__` holds iff the element symbols agree after lowercasing and
the four numeric fields are exactly equal; "H" versus "h" with equal
numerics are equal, while a charge difference of 1e-9 breaks equality. -/
theorem C8_equality :
    (∀ a b : Atom,
      Atom.beq a b = true ↔
        (pyLower a.elem = pyLower b.elem ∧ a.x = b.x ∧ a.y = b.y ∧ a.z = b.z ∧ a.q = b.q)) ∧
      Atom.beq hAtom hAtomLower = true ∧
      Atom.beq hAtom (Atom.ofParts "H" 0 0 0 (1 / 1000000000)) = false := by
  refine ⟨fun a b => ?_, by decide, ?_⟩
  · simp [Atom.beq, and_assoc]
  · have hne : (0 : ℚ) ≠ 1 / 1000000000 := by norm_num
    simp [Atom.beq, hAtom, Atom.ofParts, hne]

/-- C9: the constructor stores `num = 1` whatever `num` argument it is
given, and `translate`, `translated`, `set_connectivity` and `num_to_elem`
all preserve `num = 1`, so every atom this interface produces has `num = 1`. -/
theorem C9_num_invariant :
    (∀ (elemIn : String) (xIn yIn zIn qIn : PyFloatArg) (numIn : ℤ) (a : Atom) (diag : Bool),
        Atom.init elemIn xIn yIn zIn qIn numIn = .ok (a, diag) → a.num = 1) ∧
      (∀ (a : Atom) (d1 d2 d3 : ℚ), (a.translate d1 d2 d3).num = a.num) ∧
      (∀ (a : Atom) (d1 d2 d3 : ℚ), (a.translated d1 d2 d3).num = 1) ∧
      (∀ (a : Atom) (in_atoms : List Atom) (in_row : List ℚ),
        (a.set_connectivity in_atoms in_row).num = a.num) ∧
      (∀ (a : Atom) (n : ℤ), (a.num_to_elem n).num = a.num) := by
  refine ⟨?_, fun a d1 d2 d3 => rfl, fun a d1 d2 d3 => rfl,
    fun a in_atoms in_row => rfl, fun a n => ?_⟩
  · intro elemIn xIn yIn zIn qIn numIn a diag h
    cases xIn <;> cases yIn <;> cases zIn <;> cases qIn <;> cases h <;> rfl
  · show (periodic.foldl _ a).num = a.num
    induction periodic generalizing a with
    | nil => rfl
    | cons e es ih =>
      rw [List.foldl_cons, ih]
      split <;> rfl

/-- Witness for C9's constructor clause at a concrete call. -/
theorem C9_num_invariant_witness : (Atom.ofParts "C" 1 2 3 4).num = 1 :=
  C9_num_invariant.1 "C" (.ok 1) (.ok 2) (.ok 3) (.ok 4) 42 (Atom.ofParts "C" 1 2 3 4)
    false rfl

/-- C10: `translated` hands back an atom built by the constructor, so its
`connectivity` and `kind` are `None` and `num = 1` even when the receiver
was classified; only the element, the charge and the shifted coordinates
carry over. -/
theorem C10_translated_resets (a : Atom) (d1 d2 d3 : ℚ) :
    (a.translated d1 d2 d3).connectivity = none ∧
      (a.translated d1 d2 d3).kind = none ∧
      (a.translated d1 d2 d3).num = 1 ∧
      (a.translated d1 d2 d3).elem = a.elem ∧
      (a.translated d1 d2 d3).q = a.q ∧
      (a.translated d1 d2 d3).x = a.x + d1 ∧
      (a.translated d1 d2 d3).y = a.y + d2 ∧
      (a.translated d1 d2 d3).z = a.z + d3 :=
  ⟨rfl, rfl, rfl, rfl, rfl, rfl, rfl, rfl⟩

/-! ### Helper lemmas for `dist_lat` -/

theorem distSq_nonneg (a : Atom) (x1 y1 z1 : ℚ) : 0 ≤ a.distSq x1 y1 z1 := by
  unfold Atom.distSq
  positivity

theorem minStepR_map (a : Atom) (acc : Option (ℚ × Vec3)) (p : Vec3)
    (hacc : ∀ m w, acc = some (m, w) → 0 ≤ m) :
    minStepR a (acc.map (fun pr => (Real.sqrt ((pr.1 : ℚ) : ℝ), pr.2))) p =
      (minStep a acc p).map (fun pr => (Real.sqrt ((pr.1 : ℚ) : ℝ), pr.2)) := by
  cases acc with
  | none => rfl
  | some mw =>
    obtain ⟨m, w⟩ := mw
    by_cases hlt : a.distSq p.1 p.2.1 p.2.2 < m
    · have hlt' : Real.sqrt ((a.distSq p.1 p.2.1 p.2.2 : ℚ) : ℝ) <
          Real.sqrt ((m : ℚ) : ℝ) :=
        Real.sqrt_lt_sqrt (by exact_mod_cast distSq_nonneg a p.1 p.2.1 p.2.2)
          (by exact_mod_cast hlt)
      simp [minStepR, minStep, hlt, hlt']
    · have hlt' : ¬ Real.sqrt ((a.distSq p.1 p.2.1 p.2.2 : ℚ) : ℝ) <
          Real.sqrt ((m : ℚ) : ℝ) := fun hcon =>
        hlt (by
          exact_mod_cast (Real.sqrt_lt_sqrt_iff
            (by exact_mod_cast distSq_nonneg a p.1 p.2.1 p.2.2)).1 hcon)
      simp [minStepR, minStep, hlt, hlt']

theorem minStep_nonneg (a : Atom) (acc : Option (ℚ × Vec3)) (p : Vec3)
    (hacc : ∀ m w, acc = some (m, w) → 0 ≤ m) :
    ∀ m w, minStep a acc p = some (m, w) → 0 ≤ m := by
  intro m w h
  cases acc with
  | none =>
    simp only [minStep] at h
    cases h
    exact distSq_nonneg a p.1 p.2.1 p.2.2
  | some mw =>
    obtain ⟨m0, w0⟩ := mw
    simp only [minStep] at h
    split at h
    · cases h
      exact distSq_nonneg a p.1 p.2.1 p.2.2
    · cases h
      exact hacc _ _ rfl

theorem foldl_minStepR_map (a : Atom) (l : List Vec3) :
    ∀ acc : Option (ℚ × Vec3), (∀ m w, acc = some (m, w) → 0 ≤ m) →
      l.foldl (minStepR a) (acc.map (fun pr => (Real.sqrt ((pr.1 : ℚ) : ℝ), pr.2))) =
        (l.foldl (minStep a) acc).map (fun pr => (Real.sqrt ((pr.1 : ℚ) : ℝ), pr.2)) := by
  induction l with
  | nil => intro acc hacc; rfl
  | cons p ps ih =>
    intro acc hacc
    rw [List.foldl_cons, List.foldl_cons, minStepR_map a acc p hacc]
    exact ih _ (minStep_nonneg a acc p hacc)

theorem Atom.dist_lat_eq_sq (a : Atom) (x1 y1 z1 : ℚ) (aV bV cV : Vec3) :
    a.dist_lat x1 y1 z1 aV bV cV =
      (a.dist_lat_sq x1 y1 z1 aV bV cV).map
        (fun pr => (Real.sqrt ((pr.1 : ℚ) : ℝ), pr.2)) := by
  have h := foldl_minStepR_map a (latCands x1 y1 z1 aV bV cV) none
    (by intro m w h; cases h)
  simpa [Atom.dist_lat, Atom.dist_lat_sq] using h

theorem latCands_length (x1 y1 z1 : ℚ) (aV bV cV : Vec3) :
    (latCands x1 y1 z1 aV bV cV).length = 27 := rfl

theorem foldl_minStep_first_min (a : Atom) (l : List Vec3) (hne : l ≠ []) :
    ∃ m w i,
      l.foldl (minStep a) none = some (m, w) ∧
        i < l.length ∧ l.get? i = some w ∧ a.distSq w.1 w.2.1 w.2.2 = m ∧
        (∀ p ∈ l, m ≤ a.distSq p.1 p.2.1 p.2.2) ∧
        (∀ j p, j < i → l.get? j = some p → m < a.distSq p.1 p.2.1 p.2.2) := by
  induction l using List.reverseRecOn with
  | nil => exact absurd rfl hne
  | append_singleton l' b ih =>
    rcases eq_or_ne l' [] with rfl | hl'
    · refine ⟨a.distSq b.1 b.2.1 b.2.2, b, 0, rfl, by simp, rfl, rfl, ?_, ?_⟩
      · intro p hp
        rw [List.nil_append, List.mem_singleton] at hp
        subst hp
        exact le_refl _
      · intro j p hj hp
        exact absurd hj (Nat.not_lt_zero j)
    · obtain ⟨m, w, i, hfold, hi, hget, hdw, hmin, hfirst⟩ := ih hl'
      rw [List.foldl_append, hfold, List.foldl_cons, List.foldl_nil]
      by_cases hlt : a.distSq b.1 b.2.1 b.2.2 < m
      · refine ⟨a.distSq b.1 b.2.1 b.2.2, b, l'.length, ?_, ?_, ?_, rfl, ?_, ?_⟩
        · simp [minStep, hlt]
        · simp
        · exact List.get?_concat_length l' b
        · intro p hp
          rcases List.mem_append.1 hp with hp | hp
          · exact le_of_lt (lt_of_lt_of_le hlt (hmin p hp))
          · rw [List.mem_singleton] at hp
            subst hp
            exact le_refl _
        · intro j p hj hp
          rw [List.get?_append hj] at hp
          exact lt_of_lt_of_le hlt (hmin p (List.get?_mem hp))
      · refine ⟨m, w, i, ?_, ?_, ?_, hdw, ?_, ?_⟩
        · simp [minStep, hlt]
        · calc i < l'.length := hi
            _ ≤ (l' ++ [b]).length := by simp
        · rw [List.get?_append hi]
          exact hget
        · intro p hp
          rcases List.mem_append.1 hp with hp | hp
          · exact hmin p hp
          · rw [List.mem_singleton] at hp
            subst hp
            exact not_lt.1 hlt
        · intro j p hj hp
          rw [List.get?_append (lt_trans hj hi)] at hp
          exact hfirst j p hj hp

/-- C1: `dist_lat` returns the minimum Euclidean distance from the atom
over the 27 candidate translated points (visited a-outermost, then b, then
c, each set ordered positive/null/negative), together with the first
candidate attaining that minimum under the strict `<` update; on the
claim's concrete input it returns distance `0.5` with image `(0.5, 0, 0)`. -/
theorem C1_dist_lat :
    (∀ (a : Atom) (x1 y1 z1 : ℚ) (aV bV cV : Vec3),
        (latCands x1 y1 z1 aV bV cV).length = 27 ∧
          ∃ (r : ℝ) (w : Vec3) (i : ℕ),
            a.dist_lat x1 y1 z1 aV bV cV = some (r, w) ∧
              i < 27 ∧ (latCands x1 y1 z1 aV bV cV).get? i = some w ∧
              a.dist w.1 w.2.1 w.2.2 = r ∧
              (∀ p ∈ latCands x1 y1 z1 aV bV cV, r ≤ a.dist p.1 p.2.1 p.2.2) ∧
              (∀ j p, j < i → (latCands x1 y1 z1 aV bV cV).get? j = some p →
                r < a.dist p.1 p.2.1 p.2.2)) ∧
      hAtom.dist_lat (1 / 2) 0 0 (1, 0, 0) (0, 1, 0) (0, 0, 1) =
        some ((1 / 2 : ℝ), ((1 / 2 : ℚ), 0, 0)) := by
  constructor
  · intro a x1 y1 z1 aV bV cV
    refine ⟨latCands_length x1 y1 z1 aV bV cV, ?_⟩
    have hne : latCands x1 y1 z1 aV bV cV ≠ [] := by
      intro hcon
      have h27 := latCands_length x1 y1 z1 aV bV cV
      rw [hcon] at h27
      simp at h27
    obtain ⟨m, w, i, hfold, hi, hget, hdw, hmin, hfirst⟩ :=
      foldl_minStep_first_min a (latCands x1 y1 z1 aV bV cV) hne
    have hm : 0 ≤ m := hdw ▸ distSq_nonneg a w.1 w.2.1 w.2.2
    refine ⟨Real.sqrt ((m : ℚ) : ℝ), w, i, ?_, ?_, hget, ?_, ?_, ?_⟩
    · rw [Atom.dist_lat_eq_sq]
      have hsq : a.dist_lat_sq x1 y1 z1 aV bV cV = some (m, w) := hfold
      rw [hsq]
      rfl
    · exact hi
    · simp only [Atom.dist, hdw]
    · intro p hp
      simp only [Atom.dist]
      exact Real.sqrt_le_sqrt (by exact_mod_cast hmin p hp)
    · intro j p hj hp
      simp only [Atom.dist]
      exact Real.sqrt_lt_sqrt (by exact_mod_cast hm) (by exact_mod_cast hfirst j p hj hp)
  · rw [Atom.dist_lat_eq_sq]
    have hsq : hAtom.dist_lat_sq (1 / 2) 0 0 (1, 0, 0) (0, 1, 0) (0, 0, 1) =
        some (1 / 4, ((1 / 2 : ℚ), 0, 0)) := by
      norm_num [Atom.dist_lat_sq, latCands, vNeg, minStep, Atom.distSq, hAtom, Atom.ofParts]
    rw [hsq]
    have hroot : Real.sqrt (((1 / 4 : ℚ) : ℝ)) = 1 / 2 := by
      rw [show (((1 / 4 : ℚ) : ℝ)) = (1 / 2 : ℝ) ^ 2 by norm_num]
      exact Real.sqrt_sq (by norm_num)
    simp [hroot]
    rw [show (4 : ℝ) = 2 ^ 2 by norm_num]
    exact Real.sqrt_sq (by norm_num)

/-- C5: with all three lattice vectors zero, every one of the 27 candidates
degenerates to the target point, so `dist_lat` returns exactly `dist` at
that point together with the target's own coordinates. -/
theorem C5_zero_vectors (a : Atom) (x1 y1 z1 : ℚ) :
    a.dist_lat x1 y1 z1 (0, 0, 0) (0, 0, 0) (0, 0, 0) =
      some (a.dist x1 y1 z1, (x1, y1, z1)) := by
  rw [Atom.dist_lat_eq_sq]
  have hsq : a.dist_lat_sq x1 y1 z1 (0, 0, 0) (0, 0, 0) (0, 0, 0) =
      some (a.distSq x1 y1 z1, (x1, y1, z1)) := by
    simp [Atom.dist_lat_sq, latCands, vNeg, minStep]
  rw [hsq]
  rfl

/-- Witness for C1 at the claim's concrete input: atom at the origin,
target `(0.5, 0, 0)`, unit lattice vectors. -/
theorem C1_dist_lat_witness :
    hAtom.dist_lat (1 / 2) 0 0 (1, 0, 0) (0, 1, 0) (0, 0, 1) =
      some ((1 / 2 : ℝ), ((1 / 2 : ℚ), 0, 0)) :=
  C1_dist_lat.2
